import Mathlib

/-!
Verification of the celestia-node block-fetching client (`core/fetcher.go`).

A shallow embedding of the block-fetching and reconstruction client:
height resolution, commit/validator-set consistency, multi-part block
stream reassembly, and the new-block subscription lifecycle.

Modelling conventions:
* Go's `*int64` height arguments become `Option Int` (`none` = nil = "latest").
* Go's `[]byte` becomes `Option (List Nat)` where the nil/non-nil distinction
  matters (a nil slice is `none`; an empty non-nil slice is `some []`), and
  plain `List Nat` elsewhere.
* A Go function returning `(*T, error)` is embedded as a result carrying an
  `Option` value and an `Option Err`, so that the pair `(nil, nil)` is
  representable exactly as the source can produce it; a Go runtime panic
  (nil dereference, nil function call) is a distinguished `panicked` result.
* Remote calls go through a `Client` record of response oracles; each fetcher
  operation additionally returns the list of remote calls it issued, in order.
* Library conversions living outside this repository (`types.CommitFromProto`,
  `proto.Unmarshal`, ...) are abstracted as a `Codec` record of parameters;
  theorems quantify over all codecs unless a concrete evaluation is needed.
-/

namespace CoreFetcher

/-- Errors surfaced by the fetcher. Transport errors coming back from the
remote client are abstracted by a numeric code; the structured constructors
mirror the `fmt.Errorf` sites of the source. The `commitNotFound` /
`valSetNotFound` constructors carry the *height argument pointer* (an
`Option Int`), because the source formats the `*int64` argument `height`
itself with `%d` (`fmt.Errorf("core/fetcher: commit not found at height %d",
height)`), not the resolved `blockHeight`. -/
inductive Err where
  /-- An underlying remote-call failure, abstracted by a code. -/
  | transport (code : Nat)
  /-- Stream exhausted: a `Recv` past the end of the stream. -/
  | eof
  /-- The error `core/fetcher: commit not found at height %d` with the `*int64` arg. -/
  | commitNotFound (arg : Option Int)
  /-- The error `core/fetcher: validator set not found at height %d`, same arg. -/
  | valSetNotFound (arg : Option Int)
  /-- The error `cannot get block with nil hash`. -/
  | nilHash
  /-- The celestia-core `ErrPartSetUnexpectedIndex` from the part accumulator. -/
  | unexpectedIndex
  /-- A proto-conversion / decoding failure, abstracted by a code. -/
  | conversion (code : Nat)
  /-- The wrapping `core/fetcher: getting commit at height %d: %w`. -/
  | wrapGettingCommit (arg : Option Int) (e : Err)
  /-- The wrapping `core/fetcher: getting validator set at height %d: %w`. -/
  | wrapGettingValSet (arg : Option Int) (e : Err)
  /-- The wrapping `fetcher: unsubscribe from new block events: %w` of `ctx.Err()`. -/
  | stopTimeout
  deriving DecidableEq, Repr

/-- One chunk of a serialized block: `tmproto.Part` restricted to the fields
the fetcher reads (`Index`, `Bytes`). -/
structure Part where
  index : Nat
  bytes : List Nat
  deriving DecidableEq, Repr

/-- Fields of `types.Status` (its `SyncInfo`) used by the fetcher. -/
structure Status where
  latestBlockHeight : Int
  catchingUp : Bool
  deriving DecidableEq, Repr

/-- Decoded `types.Commit`; the fetcher only ever reads its `Height`. -/
structure Commit where
  height : Int
  deriving DecidableEq, Repr

/-- Decoded `types.ValidatorSet`, abstract to the fetcher. -/
structure ValidatorSet where
  tag : Nat
  deriving DecidableEq, Repr

/-- Decoded `types.BlockMeta`, abstract to the fetcher. -/
structure BlockMeta where
  tag : Nat
  deriving DecidableEq, Repr

/-- Wire-level `tmproto.Commit`; only its height is relevant here. -/
structure ProtoCommit where
  height : Int
  deriving DecidableEq, Repr

/-- Wire-level `tmproto.ValidatorSet`, abstract. -/
structure ProtoValidatorSet where
  tag : Nat
  deriving DecidableEq, Repr

/-- Wire-level `tmproto.BlockMeta`, abstract. -/
structure ProtoBlockMeta where
  tag : Nat
  deriving DecidableEq, Repr

/-- Wire-level `tmproto.Block` as produced by `proto.Unmarshal`. -/
structure ProtoBlock where
  raw : List Nat
  deriving DecidableEq, Repr

/-- Decoded block header; the consumers read its height. -/
structure Header where
  height : Int
  deriving DecidableEq, Repr

/-- Decoded `types.Block`: header plus transaction data. -/
structure Block where
  header : Header
  data : List Nat
  deriving DecidableEq, Repr

/-- Embeds `coretypes.ResultSignedBlock`: the unit of delivery for signed blocks. -/
structure SignedBlock where
  header : Header
  commit : Commit
  data : List Nat
  validatorSet : ValidatorSet
  deriving DecidableEq, Repr

/-- The library conversion and decoding functions the fetcher calls but which
live outside this repository (tendermint/celestia-core and gogoproto). Each
takes the possibly-nil proto pointer it takes in Go (the libraries reject nil
with an error themselves). -/
structure Codec where
  commitFromProto : Option ProtoCommit → Except Err Commit
  validatorSetFromProto : Option ProtoValidatorSet → Except Err ValidatorSet
  blockMetaFromProto : Option ProtoBlockMeta → Except Err BlockMeta
  unmarshalBlock : List Nat → Except Err ProtoBlock
  blockFromProto : ProtoBlock → Except Err Block

/-! ## Part accumulation (celestia-core `types.PartSet`) -/

/-- The part accumulator: `types.PartSet` restricted to the fields the
reassembly path touches. `parts` always has length `total` (slot `i` holds
the part added at index `i`, if any); `count` is the number of added parts. -/
structure PartSet where
  total : Nat
  parts : List (Option Part)
  count : Nat
  deriving DecidableEq, Repr

/-- Embeds `types.NewPartSetFromHeader`: an empty accumulator with the given total. -/
def NewPartSetFromHeader (total : Nat) : PartSet :=
  { total := total, parts := List.replicate total none, count := 0 }

/-- Modelled from the spec (§4.2 accumulator, "index collision or
out-of-range index — signalled by the accumulator") and celestia-core's
`types.PartSet.AddPartWithoutProof`, a dependency outside this repository:
an out-of-range index is rejected with `ErrPartSetUnexpectedIndex`
(`ok = false`, non-nil error); a duplicate index is rejected by returning
`ok = false` with a *nil* error; otherwise the part is stored at its index
and the count incremented (`ok = true`, nil error). Returns the Go pair
`(ok, err)` together with the updated accumulator. -/
def AddPartWithoutProof (ps : PartSet) (p : Part) : (Bool × Option Err) × PartSet :=
  if ps.total ≤ p.index then ((false, some .unexpectedIndex), ps)
  else if (ps.parts.getD p.index none).isSome then ((false, none), ps)
  else ((true, none),
    { total := ps.total, parts := ps.parts.set p.index (some p), count := ps.count + 1 })

/-- Outcome of the add loop inside `partsToBlock`: an early `return nil, err`
with a non-nil error, an early `return nil, err` from the `!ok` branch where
`err` is necessarily nil at that point, or completion with the final
accumulator. -/
inductive AddLoopOut where
  | errRet (e : Err)
  | nilNilRet
  | done (ps : PartSet)
  deriving DecidableEq, Repr

/-- The `for _, part := range parts` loop of `partsToBlock`: add each part,
propagating `err != nil` as an error return and `!ok` as the source's
`return nil, err` (with `err` nil there). -/
def addLoop (ps : PartSet) : List Part → AddLoopOut
  | [] => .done ps
  | p :: rest =>
    match AddPartWithoutProof ps p with
    | ((_, some e), _) => .errRet e
    | ((ok, none), ps') => if ok then addLoop ps' rest else .nilNilRet

/-- The byte stream exposed by `partSet.GetReader()` + `io.ReadAll`: the
concatenation of the stored parts' payloads in increasing index order
(slot order of `parts`). -/
def partSetBytes (ps : PartSet) : List Nat :=
  (ps.parts.map (fun op => match op with | some p => p.bytes | none => [])).flatten

/-- Result of the accumulation-and-read stage of `partsToBlock`, before any
decoding: an error return, the `(nil, nil)` return from the `!ok` branch,
a Go panic (`GetReader` on an incomplete set), or the reassembled bytes. -/
inductive StreamOut where
  | errRet (e : Err)
  | nilNilRet
  | panicked
  | bytes (bz : List Nat)
  deriving DecidableEq, Repr

/-- The byte-stream stage of `partsToBlock`: build a fresh accumulator whose
total is `uint32(len(parts))`, add every part in receive order, then read the
accumulated stream (`GetReader` panics if the set is incomplete). -/
def partsToStream (parts : List Part) : StreamOut :=
  match addLoop (NewPartSetFromHeader (parts.length % 2 ^ 32)) parts with
  | .errRet e => .errRet e
  | .nilNilRet => .nilNilRet
  | .done ps => if ps.count = ps.total then .bytes (partSetBytes ps) else .panicked

/-- A Go `(*T, error)` return, or a runtime panic: `ret v e` is the pair
(`v = none` is a nil pointer, `e = none` a nil error). -/
inductive GoRet (α : Type) where
  | panicked
  | ret (val : Option α) (err : Option Err)
  deriving DecidableEq, Repr

/-- Embeds `partsToBlock`: reassemble the parts into one byte stream (§ accumulation
above), then `proto.Unmarshal` it and convert with `types.BlockFromProto`. -/
def partsToBlock (c : Codec) (parts : List Part) : GoRet Block :=
  match partsToStream parts with
  | .errRet e => .ret none (some e)
  | .nilNilRet => .ret none none
  | .panicked => .panicked
  | .bytes bz =>
    match c.unmarshalBlock bz with
    | .error e => .ret none (some e)
    | .ok pbb =>
      match c.blockFromProto pbb with
      | .error e => .ret none (some e)
      | .ok block => .ret (some block) none

/-! ## The remote client and the fetcher state -/

/-- Embeds `coregrpc.CommitResponse`: the commit field may be a nil pointer. -/
structure CommitResponse where
  commit : Option ProtoCommit
  deriving DecidableEq, Repr

/-- Embeds `coregrpc.ValidatorSetResponse`: the set field may be a nil pointer. -/
structure ValidatorSetResponse where
  validatorSet : Option ProtoValidatorSet
  deriving DecidableEq, Repr

/-- One response of the `BlockByHeight` stream: the first response carries
block meta, commit and validator set alongside the part; later responses
carry only the part and the last flag (their other fields are nil). -/
structure BlockByHeightResponse where
  blockMeta : Option ProtoBlockMeta
  commit : Option ProtoCommit
  validatorSet : Option ProtoValidatorSet
  blockPart : Part
  isLast : Bool
  deriving DecidableEq, Repr

/-- One response of the `BlockByHash` stream: a part and the last flag. -/
structure BlockByHashResponse where
  blockPart : Part
  isLast : Bool
  deriving DecidableEq, Repr

/-- The already-connected Core client the fetcher consumes, as response
oracles per operation. A streaming operation yields either an open error or
the list of successive `Recv` outcomes; receiving past the end of that list
is modelled as an `eof` error. Unary responses keep the outer pointer
(`Option`) so a nil response with a nil error stays representable. -/
structure Client where
  status : Except Err Status
  commit : Int → Except Err (Option CommitResponse)
  validatorSet : Int → Except Err (Option ValidatorSetResponse)
  blockByHeight : Int → Except Err (List (Except Err BlockByHeightResponse))
  blockByHash : List Nat → Except Err (List (Except Err BlockByHashResponse))
  subscribeNewHeights : Except Err Unit

/-- The `BlockFetcher` struct: the client plus the mutable subscription
fields. `cancel`/`doneCh` are `none` until `SubscribeNewBlockEvent` assigns
them (a nil `context.CancelFunc` and a nil channel). -/
structure BlockFetcher where
  client : Client
  doneCh : Option Unit
  cancel : Option Unit

/-- Embeds `NewBlockFetcher`: only the client is set; `cancel` and `doneCh` are nil. -/
def NewBlockFetcher (client : Client) : BlockFetcher :=
  { client := client, doneCh := none, cancel := none }

/-- A remote call issued by the fetcher, with its argument. -/
inductive Call where
  | status
  | commit (height : Int)
  | validatorSet (height : Int)
  | blockByHeight (height : Int)
  | blockByHash (hash : List Nat)
  | subscribeNewHeights
  deriving DecidableEq, Repr

/-! ## Height resolution and the unary queries -/

/-- Embeds `resolveHeight`: a non-nil height is returned unchanged; a nil height is
resolved by one `Status` query to the reported latest height, any status
error surfaced unchanged. Also returns the remote calls issued. -/
def BlockFetcher.resolveHeight (f : BlockFetcher) (height : Option Int) :
    Except Err Int × List Call :=
  match height with
  | some h => (.ok h, [])
  | none =>
    match f.client.status with
    | .error e => (.error e, [.status])
    | .ok s => (.ok s.latestBlockHeight, [.status])

/-- Embeds `BlockFetcher.Commit`: resolve the height, query the commit, translate a
present-but-empty response into the not-found error built from the original
`height` argument (the `*int64` formatted with `%d` in the source), convert
via `types.CommitFromProto` otherwise. A nil response with a nil error would
dereference `res.Commit` and panic. -/
def BlockFetcher.Commit (c : Codec) (f : BlockFetcher) (height : Option Int) :
    GoRet Commit × List Call :=
  match f.resolveHeight height with
  | (.error e, t) => (.ret none (some e), t)
  | (.ok blockHeight, t) =>
    match f.client.commit blockHeight with
    | .error e => (.ret none (some e), t ++ [.commit blockHeight])
    | .ok res =>
      if (match res with | some r => r.commit.isNone | none => false) then
        (.ret none (some (.commitNotFound height)), t ++ [.commit blockHeight])
      else
        match res with
        | none => (.panicked, t ++ [.commit blockHeight])
        | some r =>
          match c.commitFromProto r.commit with
          | .error e => (.ret none (some e), t ++ [.commit blockHeight])
          | .ok commit => (.ret (some commit) none, t ++ [.commit blockHeight])

/-- Embeds `BlockFetcher.ValidatorSet`: same shape as `Commit` for validator sets,
with the not-found error again built from the original `height` argument. -/
def BlockFetcher.ValidatorSet (c : Codec) (f : BlockFetcher) (height : Option Int) :
    GoRet ValidatorSet × List Call :=
  match f.resolveHeight height with
  | (.error e, t) => (.ret none (some e), t)
  | (.ok blockHeight, t) =>
    match f.client.validatorSet blockHeight with
    | .error e => (.ret none (some e), t ++ [.validatorSet blockHeight])
    | .ok res =>
      if (match res with | some r => r.validatorSet.isNone | none => false) then
        (.ret none (some (.valSetNotFound height)), t ++ [.validatorSet blockHeight])
      else
        match res with
        | none => (.panicked, t ++ [.validatorSet blockHeight])
        | some r =>
          match c.validatorSetFromProto r.validatorSet with
          | .error e => (.ret none (some e), t ++ [.validatorSet blockHeight])
          | .ok valSet => (.ret (some valSet) none, t ++ [.validatorSet blockHeight])

/-- Result of `GetBlockInfo`, a Go `(*Commit, *ValidatorSet, error)` return
or a panic (`&commit.Height` on a nil commit). -/
inductive BlockInfoRet where
  | panicked
  | ret (commit : Option Commit) (valSet : Option ValidatorSet) (err : Option Err)
  deriving DecidableEq, Repr

/-- Embeds `GetBlockInfo`: fetch the commit at the requested height, then fetch the
validator set pinned to `commit.Height` (not the original argument), wrapping
either failure with the original `height` argument. -/
def BlockFetcher.GetBlockInfo (c : Codec) (f : BlockFetcher) (height : Option Int) :
    BlockInfoRet × List Call :=
  match f.Commit c height with
  | (.panicked, t) => (.panicked, t)
  | (.ret _ (some e), t) => (.ret none none (some (.wrapGettingCommit height e)), t)
  | (.ret none none, t) => (.panicked, t)
  | (.ret (some commit) none, t) =>
    match f.ValidatorSet c (some commit.height) with
    | (.panicked, t') => (.panicked, t ++ t')
    | (.ret _ (some e), t') =>
      (.ret none none (some (.wrapGettingValSet height e)), t ++ t')
    | (.ret valSet none, t') => (.ret (some commit) valSet none, t ++ t')

/-! ## Streaming block retrieval -/

/-- Result of `receiveBlockByHeight`, a Go
`(*Block, *BlockMeta, *Commit, *ValidatorSet, error)` return or a panic.
Every error return of the source sets all four pointers nil; the success
return carries the meta/commit/validator-set of the first response, while the
block pointer is whatever `partsToBlock` returned (nil when its `!ok` branch
fired with a nil error). -/
inductive ReceiveByHeightRet where
  | errRet (e : Err)
  | okRet (block : Option Block) (meta : BlockMeta) (commit : Commit)
      (valSet : ValidatorSet)
  | panicked
  deriving DecidableEq, Repr

/-- The `for !isLast` collection loop shared by both receive functions:
starting from the parts received so far and the previous response's last
flag, keep receiving and appending `resp.BlockPart` until a response is
flagged last; a `Recv` error aborts with that error. -/
def collectParts (acc : List Part) :
    Bool → List (Except Err BlockByHeightResponse) → Except Err (List Part)
  | true, _ => .ok acc
  | false, [] => .error .eof
  | false, .error e :: _ => .error e
  | false, .ok resp :: rest => collectParts (acc ++ [resp.blockPart]) resp.isLast rest

/-- Embeds `receiveBlockByHeight`: receive the first response, convert its block
meta, commit and validator set, then collect the remaining parts until the
last flag and reassemble them with `partsToBlock`. -/
def receiveBlockByHeight (c : Codec) (stream : List (Except Err BlockByHeightResponse)) :
    ReceiveByHeightRet :=
  match stream with
  | [] => .errRet .eof
  | .error e :: _ => .errRet e
  | .ok resp :: rest =>
    match c.blockMetaFromProto resp.blockMeta with
    | .error e => .errRet e
    | .ok blockMeta =>
      match c.commitFromProto resp.commit with
      | .error e => .errRet e
      | .ok commit =>
        match c.validatorSetFromProto resp.validatorSet with
        | .error e => .errRet e
        | .ok validatorSet =>
          match collectParts [resp.blockPart] resp.isLast rest with
          | .error e => .errRet e
          | .ok parts =>
            match partsToBlock c parts with
            | .panicked => .panicked
            | .ret _ (some e) => .errRet e
            | .ret block none => .okRet block blockMeta commit validatorSet

/-- The by-hash collection loop: from no parts and `isLast = false`, receive
and append parts until a response is flagged last. -/
def collectPartsByHash (acc : List Part) :
    Bool → List (Except Err BlockByHashResponse) → Except Err (List Part)
  | true, _ => .ok acc
  | false, [] => .error .eof
  | false, .error e :: _ => .error e
  | false, .ok resp :: rest => collectPartsByHash (acc ++ [resp.blockPart]) resp.isLast rest

/-- Embeds `receiveBlockByHash`: collect every part of the stream, then reassemble
with `partsToBlock`. -/
def receiveBlockByHash (c : Codec) (stream : List (Except Err BlockByHashResponse)) :
    GoRet Block :=
  match collectPartsByHash [] false stream with
  | .error e => .ret none (some e)
  | .ok parts => partsToBlock c parts

/-- Embeds `GetBlock`: resolve the height, open the by-height stream, drive
reassembly; the block pointer of a successful receive is returned with a nil
error even when it is itself nil. -/
def BlockFetcher.GetBlock (c : Codec) (f : BlockFetcher) (height : Option Int) :
    GoRet Block × List Call :=
  match f.resolveHeight height with
  | (.error e, t) => (.ret none (some e), t)
  | (.ok blockHeight, t) =>
    match f.client.blockByHeight blockHeight with
    | .error e => (.ret none (some e), t ++ [.blockByHeight blockHeight])
    | .ok stream =>
      match receiveBlockByHeight c stream with
      | .panicked => (.panicked, t ++ [.blockByHeight blockHeight])
      | .errRet e => (.ret none (some e), t ++ [.blockByHeight blockHeight])
      | .okRet block _ _ _ => (.ret block none, t ++ [.blockByHeight blockHeight])

/-- Embeds `GetBlockByHash`: a nil hash is rejected immediately with no remote call;
otherwise the by-hash stream is opened and driven through reassembly. The
check is Go's `hash == nil`: an empty non-nil slice passes it. -/
def BlockFetcher.GetBlockByHash (c : Codec) (f : BlockFetcher) (hash : Option (List Nat)) :
    GoRet Block × List Call :=
  match hash with
  | none => (.ret none (some .nilHash), [])
  | some h =>
    match f.client.blockByHash h with
    | .error e => (.ret none (some e), [.blockByHash h])
    | .ok stream =>
      match receiveBlockByHash c stream with
      | .panicked => (.panicked, [.blockByHash h])
      | .ret _ (some e) => (.ret none (some e), [.blockByHash h])
      | .ret block none => (.ret block none, [.blockByHash h])

/-- Embeds `GetSignedBlock`: resolve the height, open the by-height stream, and
assemble the received block, commit and validator set into one
`ResultSignedBlock`. Building the result dereferences `block`, `commit` and
`validatorSet`; a nil block with a nil error (the reassembly `!ok` slip)
panics here. -/
def BlockFetcher.GetSignedBlock (c : Codec) (f : BlockFetcher) (height : Option Int) :
    GoRet SignedBlock × List Call :=
  match f.resolveHeight height with
  | (.error e, t) => (.ret none (some e), t)
  | (.ok blockHeight, t) =>
    match f.client.blockByHeight blockHeight with
    | .error e => (.ret none (some e), t ++ [.blockByHeight blockHeight])
    | .ok stream =>
      match receiveBlockByHeight c stream with
      | .panicked => (.panicked, t ++ [.blockByHeight blockHeight])
      | .errRet e => (.ret none (some e), t ++ [.blockByHeight blockHeight])
      | .okRet none _ _ _ => (.panicked, t ++ [.blockByHeight blockHeight])
      | .okRet (some block) _ commit validatorSet =>
        (.ret (some { header := block.header, commit := commit, data := block.data,
                      validatorSet := validatorSet }) none,
         t ++ [.blockByHeight blockHeight])

/-! ## Subscription lifecycle -/

/-- Result of `Stop`: invoking a nil `f.cancel` is a Go runtime panic;
otherwise the return carries whether cancellation was requested (it always
is, before the wait) and the returned error (nil on observing `doneCh`, the
wrapped `ctx.Err()` when the caller's deadline elapses first). -/
inductive StopRet where
  | panicNilCancel
  | ret (cancelRequested : Bool) (err : Option Err)
  deriving DecidableEq, Repr

/-- Embeds `Stop`: call `f.cancel()` (panicking if it is nil), then select between
the completion signal and the caller's deadline. `doneFired` says whether
`doneCh` became ready before the deadline; a nil `doneCh` is a nil channel,
never ready in a select, so only the deadline branch can fire then. -/
def BlockFetcher.Stop (f : BlockFetcher) (doneFired : Bool) : StopRet :=
  match f.cancel with
  | none => .panicNilCancel
  | some _ =>
    if f.doneCh.isSome && doneFired then .ret true none
    else .ret true (some .stopTimeout)

/-- Embeds `SubscribeNewBlockEvent`, field effects and open call: a fresh cancel
function and done channel are stored on the fetcher *before* the stream-open
request, whose failure is returned with the fields already assigned. The
background loop itself is `subscriptionLoop` below. -/
def BlockFetcher.SubscribeNewBlockEvent (f : BlockFetcher) :
    Except Err Unit × BlockFetcher :=
  let f' := { f with cancel := some (), doneCh := some () }
  match f'.client.subscribeNewHeights with
  | .error e => (.error e, f')
  | .ok _ => (.ok (), f')

/-- One observed step of the subscription receive loop: either the top-level
select sees the context cancelled, or `subscription.Recv()` completes with an
error or a height. For a received height, `sendDelivered` records which arm
of the output select fires after a successful fetch: the push to the output
channel (`true`) or the context's cancellation (`false`). -/
inductive LoopStim where
  | ctxDone
  | recv (r : Except Err Int) (sendDelivered : Bool)
  deriving Repr

/-- Why the receive loop returned. -/
inductive LoopExit where
  | ctxDoneTop
  | recvError (e : Err)
  | fetchError (height : Int) (e : Err)
  | fetchPanic (height : Int)
  | ctxDoneSend
  deriving DecidableEq, Repr

/-- Outcome of driving the receive loop through a finite list of stimuli:
either the stimuli ran out with the loop still alive (channels still open),
or the loop returned, running its deferred `close(f.doneCh)` and
`close(signedBlockCh)` — the two closed flags are set exactly at each return
site — leaving any later stimuli unconsumed. -/
inductive LoopOutcome where
  | running
  | exited (reason : LoopExit) (leftover : List LoopStim)
      (doneChClosed outChClosed : Bool)
  deriving Repr

/-- The body of the goroutine started by `SubscribeNewBlockEvent`: loop over
stimuli; on cancellation or a receive error, return; on a received height,
fetch `GetSignedBlock` at that height — a failed fetch returns (single
failure ends the subscription) — then push the event unless cancellation
wins the send select. Returns the events pushed, in order, and the outcome. -/
def subscriptionLoop (c : Codec) (f : BlockFetcher) :
    List LoopStim → List SignedBlock × LoopOutcome
  | [] => ([], .running)
  | .ctxDone :: rest => ([], .exited .ctxDoneTop rest true true)
  | .recv (.error e) _ :: rest => ([], .exited (.recvError e) rest true true)
  | .recv (.ok height) sendDelivered :: rest =>
    match (f.GetSignedBlock c (some height)).1 with
    | .panicked => ([], .exited (.fetchPanic height) rest true true)
    | .ret _ (some e) => ([], .exited (.fetchError height e) rest true true)
    | .ret none none => ([], .exited (.fetchPanic height) rest true true)
    | .ret (some sb) none =>
      if sendDelivered then
        (sb :: (subscriptionLoop c f rest).1, (subscriptionLoop c f rest).2)
      else ([], .exited .ctxDoneSend rest true true)

/-! ## Concrete fixtures for witnesses and counterexamples -/

/-- A concrete codec: conversions succeed on non-nil proto values (rejecting
nil pointers with an error, as the libraries do), block bytes decode to a
block whose data is the byte stream itself. -/
def cdc0 : Codec where
  commitFromProto := fun o =>
    match o with
    | some pc => .ok { height := pc.height }
    | none => .error (.conversion 0)
  validatorSetFromProto := fun o =>
    match o with
    | some v => .ok { tag := v.tag }
    | none => .error (.conversion 1)
  blockMetaFromProto := fun o =>
    match o with
    | some m => .ok { tag := m.tag }
    | none => .error (.conversion 2)
  unmarshalBlock := fun bz => .ok { raw := bz }
  blockFromProto := fun pb => .ok { header := { height := 0 }, data := pb.raw }

/-- A client on which every remote operation fails; fixtures override the
operations they exercise. -/
def clientBase : Client where
  status := .error (.transport 100)
  commit := fun _ => .error (.transport 101)
  validatorSet := fun _ => .error (.transport 102)
  blockByHeight := fun _ => .error (.transport 103)
  blockByHash := fun _ => .error (.transport 104)
  subscribeNewHeights := .error (.transport 105)

/-- Client whose status reports latest height 7. -/
def clientC7 : Client :=
  { clientBase with status := .ok { latestBlockHeight := 7, catchingUp := false } }

/-- Client whose by-hash stream opens successfully and ends immediately. -/
def clientC3 : Client :=
  { clientBase with blockByHash := fun _ => .ok [] }

/-- Client reporting latest height 7 whose commit and validator-set queries
at height 7 succeed but carry a nil entity; other heights fail in transport. -/
def clientC9 : Client :=
  { clientBase with
    status := .ok { latestBlockHeight := 7, catchingUp := false },
    commit := fun h =>
      if h = 7 then .ok (some { commit := none }) else .error (.transport 3),
    validatorSet := fun h =>
      if h = 7 then .ok (some { validatorSet := none }) else .error (.transport 4) }

/-- Client reporting latest height 5 whose commit query at 5 returns a commit
that itself reports height 99, and whose validator-set query succeeds only at
height 99 — exercising validator-set pinning to the commit's height. -/
def clientC1 : Client :=
  { clientBase with
    status := .ok { latestBlockHeight := 5, catchingUp := false },
    commit := fun h =>
      if h = 5 then .ok (some { commit := some { height := 99 } })
      else .error (.transport 3),
    validatorSet := fun h =>
      if h = 99 then .ok (some { validatorSet := some { tag := 4 } })
      else .error (.transport 4) }

/-- A successfully received non-last first response of a by-height stream. -/
def respC8 : BlockByHeightResponse :=
  { blockMeta := some { tag := 0 }, commit := some { height := 4 },
    validatorSet := some { tag := 0 }, blockPart := { index := 0, bytes := [1] },
    isLast := false }

/-- Client whose by-height stream at height 4 delivers one good non-last
response and then fails in transport. -/
def clientC8 : Client :=
  { clientBase with
    blockByHeight := fun h =>
      if h = 4 then .ok [.ok respC8, .error (.transport 9)]
      else .error (.transport 103) }

/-- A complete single-part by-height stream response carrying everything
needed for a signed block. -/
def respC4 : BlockByHeightResponse :=
  { blockMeta := some { tag := 0 }, commit := some { height := 1 },
    validatorSet := some { tag := 0 }, blockPart := { index := 0, bytes := [1] },
    isLast := true }

/-- Client whose by-height fetch succeeds at height 1 and fails at height 2:
the subscription loop delivers height 1 and dies on height 2. -/
def clientC4 : Client :=
  { clientBase with
    blockByHeight := fun h =>
      if h = 1 then .ok [.ok respC4] else .error (.transport 9) }

/-- The signed block `GetSignedBlock` assembles from `respC4` under `cdc0`. -/
def sbC4 : SignedBlock :=
  { header := { height := 0 }, commit := { height := 1 }, data := [1],
    validatorSet := { tag := 0 } }

/-! ## C7 — height resolution -/

/-- C7: for every non-nil height `h`, `resolveHeight` returns `h` unchanged
and issues no remote call; for a nil height it issues exactly one status
query and returns the reported latest block height, and any status error is
surfaced unchanged. -/
theorem resolveHeight_identity_and_latest (f : BlockFetcher) :
    (∀ h : Int, f.resolveHeight (some h) = (.ok h, []))
    ∧ (∀ s, f.client.status = .ok s →
        f.resolveHeight none = (.ok s.latestBlockHeight, [.status]))
    ∧ (∀ e, f.client.status = .error e →
        f.resolveHeight none = (.error e, [.status])) := by
  refine ⟨fun h => rfl, fun s hs => ?_, fun e he => ?_⟩
  · simp [BlockFetcher.resolveHeight, hs]
  · simp [BlockFetcher.resolveHeight, he]

/-- Witness for C7 at a concrete client reporting latest height 7. -/
theorem resolveHeight_identity_and_latest_witness :
    (NewBlockFetcher clientC7).resolveHeight (some 3) = (.ok 3, [])
    ∧ (NewBlockFetcher clientC7).resolveHeight none = (.ok 7, [.status]) :=
  ⟨(resolveHeight_identity_and_latest (NewBlockFetcher clientC7)).1 3,
   (resolveHeight_identity_and_latest (NewBlockFetcher clientC7)).2.1
     { latestBlockHeight := 7, catchingUp := false } rfl⟩

/-! ## C5 — the `Stop` contract -/

/-- C5: `Stop` requests cancellation first and keeps the request in effect on
both outcomes: with the subscription fields assigned it returns nil exactly
when the completion signal is observed before the caller's deadline, and the
timeout error otherwise — cancellation having been requested either way. -/
theorem stop_cancels_then_waits (f : BlockFetcher) (doneFired : Bool)
    (hc : f.cancel = some ()) (hd : f.doneCh = some ()) :
    f.Stop doneFired = .ret true (if doneFired then none else some .stopTimeout) := by
  unfold BlockFetcher.Stop
  rw [hc, hd]
  cases doneFired <;> simp

/-- Witness for C5: both select outcomes at a concrete subscribed fetcher. -/
theorem stop_cancels_then_waits_witness :
    ({ client := clientBase, doneCh := some (), cancel := some () } : BlockFetcher).Stop
        true = .ret true none
    ∧ ({ client := clientBase, doneCh := some (), cancel := some () } : BlockFetcher).Stop
        false = .ret true (some .stopTimeout) :=
  ⟨stop_cancels_then_waits _ true rfl rfl, stop_cancels_then_waits _ false rfl rfl⟩

/-! ## C10 — `Stop` requires a prior subscription -/

/-- C10: on a fetcher on which `SubscribeNewBlockEvent` was never invoked the
`cancel` and `doneCh` fields are nil and `Stop` faults by invoking the nil
cancel function, whereas after any `SubscribeNewBlockEvent` call (which
assigns both fields before anything can fail) `Stop` no longer faults. -/
theorem stop_faults_without_subscribe (client : Client) :
    (NewBlockFetcher client).cancel = none
    ∧ (NewBlockFetcher client).doneCh = none
    ∧ (∀ doneFired, (NewBlockFetcher client).Stop doneFired = .panicNilCancel)
    ∧ (∀ f : BlockFetcher, ∀ doneFired,
        (f.SubscribeNewBlockEvent).2.Stop doneFired ≠ .panicNilCancel) := by
  refine ⟨rfl, rfl, fun _ => rfl, fun f doneFired => ?_⟩
  unfold BlockFetcher.SubscribeNewBlockEvent BlockFetcher.Stop
  cases h : f.client.subscribeNewHeights <;> cases doneFired <;> simp [h]

/-! ## C3 — hash validation in `GetBlockByHash` -/

/-- Reassembly (`partsToBlock`) never pairs a non-nil block with a non-nil error. -/
theorem partsToBlock_no_val_with_err (c : Codec) (parts : List Part) (b : Block) (e : Err) :
    partsToBlock c parts ≠ .ret (some b) (some e) := by
  unfold partsToBlock
  cases h1 : partsToStream parts with
  | errRet e' => simp
  | nilNilRet => simp
  | panicked => simp
  | bytes bz =>
    cases h2 : c.unmarshalBlock bz with
    | error e' => simp [h2]
    | ok pbb =>
      cases h3 : c.blockFromProto pbb with
      | error e' => simp [h2, h3]
      | ok block => simp [h2, h3]

/-- Receiving by hash never pairs a non-nil block with a non-nil error. -/
theorem receiveBlockByHash_no_val_with_err (c : Codec)
    (stream : List (Except Err BlockByHashResponse)) (b : Block) (e : Err) :
    receiveBlockByHash c stream ≠ .ret (some b) (some e) := by
  unfold receiveBlockByHash
  cases h1 : collectPartsByHash [] false stream with
  | error e' => simp [h1]
  | ok parts => simpa [h1] using partsToBlock_no_val_with_err c parts b e

/-- C3 counterexample: an empty but non-nil hash is *not* rejected — Go's
`hash == nil` does not catch `[]byte{}` — so the by-hash remote call is
issued and the invalid-argument error is not returned. -/
theorem getBlockByHash_empty_hash_calls_remote :
    ((NewBlockFetcher clientC3).GetBlockByHash cdc0 (some [])).2 = [.blockByHash []]
    ∧ ((NewBlockFetcher clientC3).GetBlockByHash cdc0 (some [])).1
        ≠ .ret none (some .nilHash) :=
  ⟨rfl, by decide⟩

/-- C3 (amended): a *nil* hash is rejected immediately with the
invalid-argument error and no remote call is issued; every non-nil hash
(including the empty one) issues exactly the by-hash streaming call, and when
the stream opens the result is exactly that of driving reassembly on it. -/
theorem getBlockByHash_nil_rejected (c : Codec) (f : BlockFetcher) :
    f.GetBlockByHash c none = (.ret none (some .nilHash), [])
    ∧ (∀ h : List Nat, (f.GetBlockByHash c (some h)).2 = [.blockByHash h])
    ∧ (∀ (h : List Nat) stream, f.client.blockByHash h = .ok stream →
        (f.GetBlockByHash c (some h)).1 = receiveBlockByHash c stream) := by
  refine ⟨rfl, fun h => ?_, fun h stream hs => ?_⟩
  · simp only [BlockFetcher.GetBlockByHash]
    cases hb : f.client.blockByHash h with
    | error e => simp [hb]
    | ok stream =>
      simp only [hb]
      cases hr : receiveBlockByHash c stream with
      | panicked => simp [hr]
      | ret b e =>
        cases b <;> cases e <;> simp [hr]
  · simp only [BlockFetcher.GetBlockByHash, hs]
    cases hr : receiveBlockByHash c stream with
    | panicked => simp [hr]
    | ret b e =>
      cases b with
      | none => cases e <;> simp [hr]
      | some blk =>
        cases e with
        | none => simp [hr]
        | some e' => exact absurd hr (receiveBlockByHash_no_val_with_err c stream blk e')

/-- Witness for C3 (amended) at a concrete client: the nil rejection and the
pass-through to reassembly on an opened stream. -/
theorem getBlockByHash_nil_rejected_witness :
    (NewBlockFetcher clientC3).GetBlockByHash cdc0 none = (.ret none (some .nilHash), [])
    ∧ ((NewBlockFetcher clientC3).GetBlockByHash cdc0 (some [7])).1
        = receiveBlockByHash cdc0 [] :=
  ⟨(getBlockByHash_nil_rejected cdc0 (NewBlockFetcher clientC3)).1,
   (getBlockByHash_nil_rejected cdc0 (NewBlockFetcher clientC3)).2.2 [7] [] rfl⟩

/-! ## C2 — error signalling of part reassembly -/

/-- C2 (code evaluation): on an index collision the accumulator signals
`ok = false` with a *nil* error, and the `if !ok` branch of `partsToBlock`
returns that nil `err` — the reassembly returns a nil block together with a
nil error instead of a reconstruction error. -/
theorem partsToBlock_duplicate_index_nil_nil :
    partsToBlock cdc0 [{ index := 0, bytes := [1] }, { index := 0, bytes := [2] }]
        = .ret none none
    ∧ (AddPartWithoutProof
          { total := 2, parts := [some { index := 0, bytes := [1] }, none], count := 1 }
          { index := 0, bytes := [2] }).1 = (false, none) := by
  refine ⟨by decide, by decide⟩

/-! ## C6 — reassembly order -/

/-- The concatenation of part payloads in receive order. -/
def receiveOrderBytes (parts : List Part) : List Nat :=
  (parts.map Part.bytes).flatten

/-- C6 counterexample: the stream `partsToBlock` feeds to decoding follows
declared indices, not receive order. Receiving `[index 1 ↦ [2], index 0 ↦ [1]]`
silently succeeds with the index-ordered stream `[1, 2]`, which differs from
the receive-order concatenation `[2, 1]` and coincides exactly with the
stream of the in-order delivery — the misordered parts reassemble the
in-order block. -/
theorem partsToStream_misordered :
    partsToStream [{ index := 1, bytes := [2] }, { index := 0, bytes := [1] }]
        = .bytes [1, 2]
    ∧ receiveOrderBytes [{ index := 1, bytes := [2] }, { index := 0, bytes := [1] }]
        = [2, 1]
    ∧ ([1, 2] : List Nat) ≠ [2, 1]
    ∧ partsToStream [{ index := 0, bytes := [1] }, { index := 1, bytes := [2] }]
        = .bytes [1, 2] := by
  refine ⟨by decide, by decide, by decide, by decide⟩

/-- Element lookup with default at the length of the left list. -/
theorem getD_append_self_length {α : Type} (xs : List α) (y : α) (ys : List α) (d : α) :
    (xs ++ y :: ys).getD xs.length d = y := by
  induction xs with
  | nil => rfl
  | cons x xs ih => simpa using ih

/-- Setting the element at the length of the left list. -/
theorem set_append_self_length {α : Type} (xs : List α) (y : α) (ys : List α) (v : α) :
    (xs ++ y :: ys).set xs.length v = xs ++ v :: ys := by
  induction xs with
  | nil => rfl
  | cons x xs ih => simp [ih]

/-- Adding parts whose indices continue the already-filled prefix fills the
accumulator completely, in index order. -/
theorem addLoop_fill (n : Nat) (told todo : List Part)
    (hn : told.length + todo.length = n)
    (hidx : ∀ i (hi : i < todo.length), (todo.get ⟨i, hi⟩).index = told.length + i) :
    addLoop
        { total := n, parts := told.map some ++ List.replicate todo.length none,
          count := told.length } todo
      = .done { total := n, parts := (told ++ todo).map some, count := n } := by
  induction todo generalizing told with
  | nil =>
    simp only [addLoop, List.length_nil, List.replicate_zero, List.append_nil]
    simp only [List.length_nil, Nat.add_zero] at hn
    rw [hn]
  | cons p rest ih =>
    have hp : p.index = told.length := by
      simpa using hidx 0 (by simp)
    have hlen : told.length + (rest.length + 1) = n := by simpa using hn
    have hlt : told.length < n := by omega
    have hget : ((told.map some ++ List.replicate (rest.length + 1) none).getD
        told.length none) = none := by
      rw [List.replicate_succ]
      have h := getD_append_self_length (told.map some) (none : Option Part)
        (List.replicate rest.length none) none
      simpa using h
    have hset : ((told.map some ++ List.replicate (rest.length + 1) none).set
        told.length (some p))
        = (told ++ [p]).map some ++ List.replicate rest.length none := by
      rw [List.replicate_succ]
      have h := set_append_self_length (told.map some) (none : Option Part)
        (List.replicate rest.length none) (some p)
      simp only [List.length_map] at h
      rw [h]
      simp
    have ihs := ih (told ++ [p])
      (by simp only [List.length_append, List.length_singleton]; omega)
      (fun i hi => by
        have h1 := hidx (i + 1) (by simpa using Nat.succ_lt_succ hi)
        exact h1.trans
          (by simp only [List.length_append, List.length_singleton]; omega))
    simp only [addLoop, AddPartWithoutProof, hp, List.length_cons]
    rw [if_neg (by omega), hget, hset]
    simp only [Option.isSome_none, Bool.false_eq_true, if_false, if_true]
    refine (by simpa using ihs : addLoop _ rest = _).trans ?_
    simp [List.append_assoc]

/-- Reading a fully filled accumulator yields the payloads in slot order. -/
theorem partSetBytes_map_some (parts : List Part) (n : Nat) :
    partSetBytes { total := n, parts := parts.map some, count := n }
      = receiveOrderBytes parts := by
  simp only [partSetBytes, receiveOrderBytes, List.map_map]
  rfl

/-- C6 (amended): reassembly follows declared part indices, not receive
order. In the in-order protocol case — every part's index equals its receive
position (and the count fits a uint32) — the reconstructed byte stream is the
concatenation of the payloads in receive order; with indices out of sequence
the stream follows index order instead and can coincide with the in-order
stream (see the counterexample). -/
theorem partsToStream_in_order (parts : List Part)
    (hlen : parts.length < 2 ^ 32)
    (hidx : ∀ i (hi : i < parts.length), (parts.get ⟨i, hi⟩).index = i) :
    partsToStream parts = .bytes (receiveOrderBytes parts) := by
  have hmod : parts.length % 2 ^ 32 = parts.length := Nat.mod_eq_of_lt hlen
  have hfill := addLoop_fill parts.length [] parts (by simp)
    (fun i hi => by simpa using hidx i hi)
  simp only [List.length_nil, List.map_nil, List.nil_append, List.replicate,
    List.nil_append] at hfill
  unfold partsToStream NewPartSetFromHeader
  rw [hmod]
  rw [show (List.replicate parts.length (none : Option Part))
      = [] ++ List.replicate parts.length none by simp] at hfill ⊢
  rw [hfill]
  simp [partSetBytes_map_some]

/-- Witness for C6 (amended): a concrete two-part in-order stream. -/
theorem partsToStream_in_order_witness :
    2 < 2 ^ 32
    ∧ partsToStream [{ index := 0, bytes := [5] }, { index := 1, bytes := [6, 7] }]
        = .bytes [5, 6, 7] :=
  ⟨by decide,
   partsToStream_in_order
     [{ index := 0, bytes := [5] }, { index := 1, bytes := [6, 7] }]
     (by decide) (by decide)⟩

/-! ## C9 — not-found error reporting -/

/-- C9 (code evaluation): with the latest height resolving to 7 and the Core
node answering at height 7 with a present response carrying no commit (resp.
no validator set), the not-found error is built from the nil height
*argument* — the `*int64` the source formats with `%d`, which renders a
pointer, not the queried height — so the concrete queried height 7 appears
nowhere in the error; a transport failure at another height propagates
unchanged. -/
theorem notFound_error_carries_argument_not_height :
    (NewBlockFetcher clientC9).Commit cdc0 none
        = (.ret none (some (.commitNotFound none)), [.status, .commit 7])
    ∧ (NewBlockFetcher clientC9).ValidatorSet cdc0 none
        = (.ret none (some (.valSetNotFound none)), [.status, .validatorSet 7])
    ∧ Err.commitNotFound none ≠ Err.commitNotFound (some 7)
    ∧ (NewBlockFetcher clientC9).Commit cdc0 (some 8)
        = (.ret none (some (.transport 3)), [.commit 8]) := by
  refine ⟨by decide, by decide, by decide, by decide⟩

/-! ## C1 — validator-set pinning in `GetBlockInfo` -/

/-- Whether a remote call is a validator-set query. -/
def Call.isValidatorSetCall : Call → Bool
  | .validatorSet _ => true
  | _ => false

/-- The trace of a height resolution is empty or a single status query. -/
theorem resolveHeight_trace (f : BlockFetcher) (height : Option Int) :
    (f.resolveHeight height).2 = [] ∨ (f.resolveHeight height).2 = [.status] := by
  cases height with
  | some h => exact .inl rfl
  | none =>
    cases hs : f.client.status with
    | error e => exact .inr (by simp [BlockFetcher.resolveHeight, hs])
    | ok s => exact .inr (by simp [BlockFetcher.resolveHeight, hs])

/-- The commit query never issues a validator-set call. -/
theorem commit_trace_no_valset (c : Codec) (f : BlockFetcher) (height : Option Int) :
    ∀ x ∈ (f.Commit c height).2, x.isValidatorSetCall = false := by
  intro x hx
  unfold BlockFetcher.Commit at hx
  rcases hrt : f.resolveHeight height with ⟨r, t⟩
  rw [hrt] at hx
  have ht : t = [] ∨ t = [.status] := by
    have h0 := resolveHeight_trace f height
    rw [hrt] at h0
    exact h0
  cases r with
  | error e =>
    simp only at hx
    rcases ht with h | h <;> subst h <;> simp_all [Call.isValidatorSetCall]
  | ok bh =>
    have hfin : x ∈ t ++ [Call.commit bh] := by
      cases hcl : f.client.commit bh with
      | error e => simpa [hcl] using hx
      | ok res =>
        cases res with
        | none => simpa [hcl] using hx
        | some rr =>
          cases hcc : rr.commit with
          | none => simpa [hcl, hcc] using hx
          | some pc =>
            simp only [hcl, hcc] at hx
            cases hconv : c.commitFromProto (some pc) with
            | error e => simpa [hconv] using hx
            | ok cm => simpa [hconv] using hx
    rcases List.mem_append.mp hfin with h1 | h1
    · rcases ht with h | h <;> subst h <;> simp_all [Call.isValidatorSetCall]
    · simp at h1
      simp [h1, Call.isValidatorSetCall]

/-- The validator-set query at a concrete height issues exactly the
validator-set call at that height. -/
theorem validatorSet_trace_concrete (c : Codec) (f : BlockFetcher) (h : Int) :
    (f.ValidatorSet c (some h)).2 = [.validatorSet h] := by
  unfold BlockFetcher.ValidatorSet BlockFetcher.resolveHeight
  cases hv : f.client.validatorSet h with
  | error e => simp [hv]
  | ok res =>
    cases res with
    | none => simp [hv]
    | some rr =>
      cases hcc : rr.validatorSet with
      | none => simp [hv, hcc]
      | some pv =>
        simp only [hv, hcc]
        cases hconv : c.validatorSetFromProto (some pv) with
        | error e => simp [hconv]
        | ok vs => simp [hconv]

/-- C1: once the commit query returns a commit, `GetBlockInfo` issues the
validator-set query at the commit's own reported height — its remote-call
trace is the commit query's trace (which contains no validator-set call)
extended with exactly `validatorSet commit.height` — and on a successful
pinned query the validator set returned is the one fetched at the commit's
height, whatever the original height argument (including nil). -/
theorem getBlockInfo_pins_validator_set (c : Codec) (f : BlockFetcher)
    (height : Option Int) (commit : Commit)
    (hc : (f.Commit c height).1 = .ret (some commit) none) :
    (f.GetBlockInfo c height).2
        = (f.Commit c height).2 ++ [.validatorSet commit.height]
    ∧ (∀ x ∈ (f.Commit c height).2, x.isValidatorSetCall = false)
    ∧ (∀ v : ValidatorSet,
        (f.ValidatorSet c (some commit.height)).1 = .ret (some v) none →
        (f.GetBlockInfo c height).1 = .ret (some commit) (some v) none) := by
  rcases hC : f.Commit c height with ⟨cres, t⟩
  have hcres : cres = .ret (some commit) none := by
    have h0 := hc
    rw [hC] at h0
    exact h0
  subst hcres
  rcases hV : f.ValidatorSet c (some commit.height) with ⟨vres, t'⟩
  have ht' : t' = [.validatorSet commit.height] := by
    have h0 := validatorSet_trace_concrete c f commit.height
    rw [hV] at h0
    exact h0
  subst ht'
  refine ⟨?_, fun x hx => commit_trace_no_valset c f height x (by rw [hC]; exact hx), ?_⟩
  · unfold BlockFetcher.GetBlockInfo
    rw [hC]
    dsimp only
    rw [hV]
    cases vres with
    | panicked => rfl
    | ret v e => cases v <;> cases e <;> rfl
  · intro v hv
    have hvres : vres = .ret (some v) none := hv
    subst hvres
    unfold BlockFetcher.GetBlockInfo
    rw [hC]
    dsimp only
    rw [hV]

/-- Witness for C1: requested height nil, latest height 5, the commit fetched
there reports height 99, and the validator-set query goes out at 99. -/
theorem getBlockInfo_pins_validator_set_witness :
    ((NewBlockFetcher clientC1).GetBlockInfo cdc0 none).2
        = [.status, .commit 5, .validatorSet 99]
    ∧ ((NewBlockFetcher clientC1).GetBlockInfo cdc0 none).1
        = .ret (some { height := 99 }) (some { tag := 4 }) none :=
  ⟨(getBlockInfo_pins_validator_set cdc0 (NewBlockFetcher clientC1) none
      { height := 99 } rfl).1,
   (getBlockInfo_pins_validator_set cdc0 (NewBlockFetcher clientC1) none
      { height := 99 } rfl).2.2 { tag := 4 } rfl⟩

/-! ## C8 — all-or-nothing streaming fetch -/

/-- If a stream error is reached before any last-flagged response, the
collection loop aborts with that error. -/
theorem collectParts_error (acc : List Part) (pre : List BlockByHeightResponse)
    (e : Err) (rest : List (Except Err BlockByHeightResponse))
    (hpre : ∀ r ∈ pre, r.isLast = false) :
    collectParts acc false (pre.map Except.ok ++ .error e :: rest) = .error e := by
  induction pre generalizing acc with
  | nil => rfl
  | cons r rs ih =>
    have hr : r.isLast = false := hpre r (by simp)
    simp only [List.map_cons, List.cons_append, collectParts, hr]
    exact ih (acc ++ [r.blockPart]) (fun x hx => hpre x (by simp [hx]))

/-- A receive error before the last-flagged part makes `receiveBlockByHeight`
return an error (the transport error itself, or a conversion error of the
first response hit before it). -/
theorem receiveBlockByHeight_stream_error (c : Codec)
    (pre : List BlockByHeightResponse) (e : Err)
    (rest : List (Except Err BlockByHeightResponse))
    (hpre : ∀ r ∈ pre, r.isLast = false) :
    ∃ e', receiveBlockByHeight c (pre.map Except.ok ++ .error e :: rest)
        = .errRet e' := by
  cases pre with
  | nil => exact ⟨e, rfl⟩
  | cons r rs =>
    have hr : r.isLast = false := hpre r (by simp)
    simp only [List.map_cons, List.cons_append, receiveBlockByHeight]
    cases h1 : c.blockMetaFromProto r.blockMeta with
    | error e1 => exact ⟨e1, by simp [h1]⟩
    | ok meta =>
      cases h2 : c.commitFromProto r.commit with
      | error e2 => exact ⟨e2, by simp [h1, h2]⟩
      | ok commit =>
        cases h3 : c.validatorSetFromProto r.validatorSet with
        | error e3 => exact ⟨e3, by simp [h1, h2, h3]⟩
        | ok valSet =>
          have hcol := collectParts_error [r.blockPart] rs e rest
            (fun x hx => hpre x (by simp [hx]))
          rw [hr] at *
          exact ⟨e, by simp [h1, h2, h3, hr, hcol]⟩

/-- C8: a transport error on the by-height stream before the last-flagged
part aborts the whole fetch: both `GetBlock` and `GetSignedBlock` return an
error and no block — nothing built from the parts received so far is
surfaced. -/
theorem stream_error_aborts_fetch (c : Codec) (f : BlockFetcher)
    (height : Option Int) (blockHeight : Int) (t : List Call)
    (pre : List BlockByHeightResponse) (e : Err)
    (rest : List (Except Err BlockByHeightResponse))
    (hpre : ∀ r ∈ pre, r.isLast = false)
    (hres : f.resolveHeight height = (.ok blockHeight, t))
    (hstream : f.client.blockByHeight blockHeight
        = .ok (pre.map Except.ok ++ .error e :: rest)) :
    (∃ e', f.GetBlock c height
        = (.ret none (some e'), t ++ [.blockByHeight blockHeight]))
    ∧ (∃ e', f.GetSignedBlock c height
        = (.ret none (some e'), t ++ [.blockByHeight blockHeight])) := by
  obtain ⟨e', he'⟩ := receiveBlockByHeight_stream_error c pre e rest hpre
  constructor
  · refine ⟨e', ?_⟩
    unfold BlockFetcher.GetBlock
    rw [hres]
    dsimp only
    rw [hstream]
    dsimp only
    rw [he']
  · refine ⟨e', ?_⟩
    unfold BlockFetcher.GetSignedBlock
    rw [hres]
    dsimp only
    rw [hstream]
    dsimp only
    rw [he']

/-- Witness for C8: one good non-last response followed by a transport
failure; the fetch at height 4 errors out with no block. -/
theorem stream_error_aborts_fetch_witness :
    (∃ e', (NewBlockFetcher clientC8).GetBlock cdc0 (some 4)
        = (.ret none (some e'), [.blockByHeight 4]))
    ∧ (∃ e', (NewBlockFetcher clientC8).GetSignedBlock cdc0 (some 4)
        = (.ret none (some e'), [.blockByHeight 4])) :=
  stream_error_aborts_fetch cdc0 (NewBlockFetcher clientC8) (some 4) 4 []
    [respC8] (.transport 9) [] (by decide) rfl rfl

/-! ## C4 — subscription loop termination and closure -/

/-- The event a stimulus contributes when its height is received, fetched
successfully and delivered. -/
def stimEvent (c : Codec) (f : BlockFetcher) : LoopStim → Option SignedBlock
  | .recv (.ok h) _ =>
    match (f.GetSignedBlock c (some h)).1 with
    | .ret (some sb) none => some sb
    | _ => none
  | _ => none

/-- C4: the receive loop closes the completion signal and the output channel
on every exit path, and a single failure ends the subscription: after any run
of successfully delivered events, one failed per-height fetch (or one receive
error) exits the loop with exactly the earlier events emitted and the rest of
the incoming stream left unconsumed — no retry or resubscription. -/
theorem subscription_loop_single_failure_ends (c : Codec) (f : BlockFetcher) :
    (∀ stims reason leftover d o,
        (subscriptionLoop c f stims).2 = .exited reason leftover d o →
        d = true ∧ o = true)
    ∧ (∀ pre h e rest,
        (∀ s ∈ pre, ∃ hs sb, s = .recv (.ok hs) true ∧
            (f.GetSignedBlock c (some hs)).1 = .ret (some sb) none) →
        (f.GetSignedBlock c (some h)).1 = .ret none (some e) →
        subscriptionLoop c f (pre ++ .recv (.ok h) true :: rest)
          = (pre.filterMap (stimEvent c f),
             .exited (.fetchError h e) rest true true))
    ∧ (∀ pre e b rest,
        (∀ s ∈ pre, ∃ hs sb, s = .recv (.ok hs) true ∧
            (f.GetSignedBlock c (some hs)).1 = .ret (some sb) none) →
        subscriptionLoop c f (pre ++ .recv (.error e) b :: rest)
          = (pre.filterMap (stimEvent c f),
             .exited (.recvError e) rest true true)) := by
  have key : ∀ stims, (subscriptionLoop c f stims).2 = .running ∨
      ∃ reason leftover,
        (subscriptionLoop c f stims).2 = .exited reason leftover true true := by
    intro stims
    induction stims with
    | nil => exact .inl rfl
    | cons s rest ih =>
      cases s with
      | ctxDone => exact .inr ⟨.ctxDoneTop, rest, rfl⟩
      | recv r sd =>
        cases r with
        | error e => exact .inr ⟨.recvError e, rest, rfl⟩
        | ok h =>
          cases hg : (f.GetSignedBlock c (some h)).1 with
          | panicked =>
            exact .inr ⟨.fetchPanic h, rest, by simp [subscriptionLoop, hg]⟩
          | ret v err =>
            cases v with
            | none =>
              cases err with
              | none =>
                exact .inr ⟨.fetchPanic h, rest, by simp [subscriptionLoop, hg]⟩
              | some e =>
                exact .inr ⟨.fetchError h e, rest, by simp [subscriptionLoop, hg]⟩
            | some sb =>
              cases err with
              | some e =>
                exact .inr ⟨.fetchError h e, rest, by simp [subscriptionLoop, hg]⟩
              | none =>
                cases sd with
                | false =>
                  exact .inr ⟨.ctxDoneSend, rest, by simp [subscriptionLoop, hg]⟩
                | true =>
                  rcases ih with hrun | ⟨reason, leftover, hex⟩
                  · exact .inl (by simp [subscriptionLoop, hg, hrun])
                  · exact .inr ⟨reason, leftover,
                      by simp [subscriptionLoop, hg, hex]⟩
  refine ⟨?_, ?_, ?_⟩
  · intro stims reason leftover d o hx
    rcases key stims with hrun | ⟨r2, l2, hex⟩
    · rw [hrun] at hx
      exact absurd hx (by simp)
    · rw [hex] at hx
      injection hx with h1 h2 h3 h4
      exact ⟨h3.symm, h4.symm⟩
  · intro pre h e rest hpre hfail
    induction pre with
    | nil =>
      simp only [List.nil_append, subscriptionLoop, hfail, List.filterMap_nil]
    | cons s ss ih =>
      obtain ⟨hs, sb, hseq, hok⟩ := hpre s (by simp)
      subst hseq
      have hev : stimEvent c f (.recv (.ok hs) true) = some sb := by
        simp [stimEvent, hok]
      simp only [List.cons_append, subscriptionLoop, hok, if_true,
        List.filterMap_cons, hev, List.append_eq]
      rw [ih (fun x hx => hpre x (by simp [hx]))]
  · intro pre e b rest hpre
    induction pre with
    | nil => simp only [List.nil_append, subscriptionLoop, List.filterMap_nil]
    | cons s ss ih =>
      obtain ⟨hs, sb, hseq, hok⟩ := hpre s (by simp)
      subst hseq
      have hev : stimEvent c f (.recv (.ok hs) true) = some sb := by
        simp [stimEvent, hok]
      simp only [List.cons_append, subscriptionLoop, hok, if_true,
        List.filterMap_cons, hev, List.append_eq]
      rw [ih (fun x hx => hpre x (by simp [hx]))]

/-- Witness for C4: one delivered event at height 1, then a failing fetch at
height 2 ends the loop with the later stimulus unconsumed. -/
theorem subscription_loop_single_failure_ends_witness :
    subscriptionLoop cdc0 (NewBlockFetcher clientC4)
        [.recv (.ok 1) true, .recv (.ok 2) true, .recv (.ok 1) true]
      = ([sbC4], .exited (.fetchError 2 (.transport 9)) [.recv (.ok 1) true]
          true true) :=
  (subscription_loop_single_failure_ends cdc0 (NewBlockFetcher clientC4)).2.1
    [.recv (.ok 1) true] 2 (.transport 9) [.recv (.ok 1) true]
    (by
      intro s hsm
      simp only [List.mem_singleton] at hsm
      exact ⟨1, sbC4, hsm, rfl⟩)
    rfl

end CoreFetcher
